import Mathlib

/-!
Verification development for the `no-mixed-html` XSS taint-analysis rule.

The definitions below are a shallow embedding of the rule engine
(`src/rules/no-mixed-html.ts`, given as `src/unnamed/part_000`) together
with its helpers `src/tree.ts`, `src/re.ts` and the `Rules` policy table.
JavaScript reference identity on syntax-tree nodes is rendered by the pair
(parent node, edge label) recorded on the ancestor chain that the traversal
threads along, and the ESLint visitor is rendered as an explicit recursive
walk that fires the same enter/exit handlers in the same order.
-/

namespace XssRule

/-- Child-position labels.  A JavaScript AST node knows which field of its
parent it sits in only through reference identity (`expr.right === node`
etc.); with a pure tree we record the edge along which the traversal
descended instead. -/
inductive Edge : Type where
  | callCallee | callArg
  | newCallee | newArg
  | memObj | memProp
  | binL | binR
  | unaryArg | updateArg | seqElem
  | assignL | assignR
  | condTest | condCons | condAlt
  | arrayElem | objProp
  | funcId | funcParam | funcBody
  | arrowParam | arrowBody
  | declId | declInit
  | propKey | propValue
  | retArg | blockStmt | exprStmtE | varDeclD
  deriving DecidableEq, Repr

mutual
/-- The estree node kinds the rule engine inspects.  `safe` mirrors
"this node has a leading comment whose trimmed text is `safe`"
(`nodeHasSafeComment`), and `parens` on binary expressions mirrors
`hasParentheses` (token before the node is `(`); both are facts the source
reads off the token stream, recorded here as fields. -/
inductive Node : Type where
  | ident (name : String) (safe : Bool)
  | lit (value : String) (regex : Bool) (safe : Bool)
  | thisE
  | member (obj prop : Node) (computed : Bool) (safe : Bool)
  | call (callee : Node) (args : NodeList) (safe : Bool)
  | newE (callee : Node) (args : NodeList)
  | binary (l r : Node) (safe parens : Bool)
  | unary (arg : Node)
  | updateE (arg : Node)
  | seqE (exprs : NodeList)
  | assign (l r : Node)
  | cond (t c a : Node)
  | arrayE (elems : NodeList) (safe : Bool)
  | objectE (props : NodeList)
  | funcE (id : OptNode) (params : NodeList) (body : NodeList)
  | funcDecl (id : OptNode) (params : NodeList) (body : NodeList)
  | arrow (params : NodeList) (body : Node)
  | declarator (id : Node) (init : OptNode)
  | prop (key val : Node)
  | ret (arg : OptNode)
  | block (stmts : NodeList)
  | exprStmt (e : Node)
  | varDecl (decls : NodeList)
  deriving DecidableEq

/-- Cons-list of nodes (kept in the mutual block so that structural
recursion over the tree stays kernel-reducible). -/
inductive NodeList : Type where
  | nil
  | cons (hd : Node) (tl : NodeList)
  deriving DecidableEq

/-- Optional node (nullable child fields such as a declarator's `init`). -/
inductive OptNode : Type where
  | none
  | some (n : Node)
  deriving DecidableEq
end

/-- An ancestor-chain entry: the parent node together with the edge from it
to the child below it on the current path.  The head of a chain is the
immediate parent of the node under consideration. -/
abbrev Anc : Type := Node × Edge

namespace NodeList
def toList : NodeList → List Node
  | .nil => []
  | .cons h t => h :: toList t

def ofList : List Node → NodeList
  | [] => .nil
  | h :: t => .cons h (ofList t)
end NodeList

/-- `isSimpleCallExpression`-guarded unwrap used by `tree.getIdentifier`,
`tree.getFullItemName` and `tree.getRuleNames`: a call is replaced by its
callee (a `NewExpression` has type `NewExpression` and is not unwrapped). -/
def unwrapCall : Node → Node
  | .call c _ _ => c
  | n => n

/-- `tree.getIdentifier`: unwrap a call to its callee, then resolve a member
expression — to its object when `computed`, otherwise to its property —
and return the result when it is an identifier. -/
def getIdentifier (n : Node) : Option Node :=
  let n1 := unwrapCall n
  let n2 := match n1 with
    | .member o p computed _ => if computed then o else p
    | _ => n1
  match n2 with
  | .ident nm s => Option.some (.ident nm s)
  | _ => Option.none

/-- `tree.getNodeName`: `this` maps to "this"; otherwise the resolved
identifier's name, or "" when none resolves. -/
def getNodeName (n : Node) : String :=
  match n with
  | .thisE => "this"
  | _ =>
    match getIdentifier n with
    | Option.some (.ident nm _) => nm
    | _ => ""

/-- `func.property.name` as read by `getFullItemName`: JavaScript yields
`undefined` for a non-identifier property, which `Array.prototype.join`
renders as the empty string. -/
def propName : Node → String
  | .ident nm _ => nm
  | _ => ""

/-- `Array.prototype.join('.')`. -/
def joinDot : List String → String
  | [] => ""
  | [x] => x
  | x :: y :: rest => x ++ "." ++ joinDot (y :: rest)

/-- The name fragments `tree.getFullItemName` pushes while walking the
member chain (already in outermost-first order, i.e. after the `reverse`). -/
def fullNameParts : Node → List String
  | .member o p _ _ => fullNameParts o ++ [propName p]
  | .ident nm _ => [nm]
  | _ => []

/-- `tree.getFullItemName`: dotted name of a (possibly called) member
chain; the chain stops at the first non-member, which contributes its name
only if it is an identifier. -/
def getFullItemName (n : Node) : String :=
  joinDot (fullNameParts (unwrapCall n))

/-- Loop body of `tree.getRuleNames` (`for (; func; func = func.object)`),
accumulating the member identifiers seen so far (`memberIdentifiers`) and
the rule-name candidates (`names`, built with `unshift`, so the outermost
= most specific name ends up first). -/
def ruleNamesGo : Node → List String → List String → List String
  | .member o p computed s, mids, names =>
    if computed then
      -- Skip computed properties; the for-update still moves to the object.
      ruleNamesGo o mids names
    else
      match getIdentifier (.member o p computed s) with
      | Option.some (.ident nm _) =>
        -- Member of something: the accumulated name gets a '.' prefix.
        ruleNamesGo o (nm :: mids)
          (("." ++ joinDot (nm :: mids)) :: names)
      | _ => names
  | f, mids, names =>
    -- Non-member: `func.computed` is undefined; after this step
    -- `func = func.object` is undefined and the loop ends.
    match getIdentifier f with
    | Option.some (.ident nm _) =>
      (joinDot (nm :: mids)) :: names
    | _ => names

/-- `tree.getRuleNames`: candidate rule names for a function node, most
specific first (e.g. `a.b.c`, `.b.c`, `.c`). -/
def getRuleNames (n : Node) : List String :=
  ruleNamesGo (unwrapCall n) [] []

/-! ## Configuration: naming patterns and the function-policy table -/

/-- A compiled naming rule (`re.toRegexp` turns `"html/i"` into `/html/i`).
The rule sets shipped with the plugin (`html/i`, `AsHtml`) have
metacharacter-free pattern sources, for which `RegExp.prototype.exec` is a
plain substring search, case-insensitive under the `i` flag; the matcher
below implements that search. -/
structure Pattern where
  source : String
  ignoreCase : Bool
  deriving DecidableEq

/-- ASCII lower-casing, as JavaScript's case-insensitive flag behaves on
the ASCII names involved here. -/
def lowChar (c : Char) : Char :=
  if 'A' ≤ c && c ≤ 'Z' then Char.ofNat (c.toNat + 32) else c

/-- Does the pattern match at the head of the text (under `eqc`)? -/
def patAt (eqc : Char → Char → Bool) : List Char → List Char → Bool
  | [], _ => true
  | _ :: _, [] => false
  | a :: as, b :: bs => eqc a b && patAt eqc as bs

/-- Does the pattern occur anywhere in the text (under `eqc`)? -/
def patIn (eqc : Char → Char → Bool) (p : List Char) : List Char → Bool
  | [] => patAt eqc p []
  | c :: rest => patAt eqc p (c :: rest) || patIn eqc p rest

def matchPattern (pt : Pattern) (s : String) : Bool :=
  if pt.ignoreCase then
    patIn (fun a b => lowChar a == lowChar b) pt.source.data s.data
  else
    patIn (fun a b => a == b) pt.source.data s.data

/-- `re.any`: true when any of the compiled rules matches the input. -/
def reAny (s : String) (ps : List Pattern) : Bool :=
  ps.any (fun p => matchPattern p s)

/-- `passthrough: { obj?: bool, args?: bool }`; an absent key is falsy. -/
structure Passthrough where
  obj : Bool := false
  args : Bool := false
  deriving DecidableEq

/-- The `safe` entry of a function policy: absent, `true`, or a name list. -/
inductive SafeRule : Type where
  | noneR
  | all
  | names (l : List String)
  deriving DecidableEq

/-- A per-function-name policy record; every field defaults to the falsy
value an absent key has in JavaScript. -/
structure FunctionPolicy where
  passthrough : Option Passthrough := Option.none
  htmlInput : Bool := false
  htmlOutput : Bool := false
  safe : SafeRule := .noneR
  deriving DecidableEq

def emptyPolicy : FunctionPolicy := {}

/-- Rule options after compilation (`htmlVariableRulesRegex`,
`htmlFunctionRules.map(re.toRegexp)`, `functions`). -/
structure Config where
  htmlVariableRules : List Pattern
  htmlFunctionRules : List Pattern
  functionRules : List (String × FunctionPolicy)

/-- The default options of the rule. -/
def defaultConfig : Config where
  htmlVariableRules := [⟨"html", true⟩]
  htmlFunctionRules := [⟨"AsHtml", false⟩]
  functionRules :=
    [ (".join", { passthrough := Option.some { obj := true, args := true } }),
      (".toString", { passthrough := Option.some { obj := true } }),
      (".substr", { passthrough := Option.some { obj := true } }),
      (".substring", { passthrough := Option.some { obj := true } }) ]

/-- The memoizing cache of `Rules`, keyed by `tree.getFullItemName`. -/
abbrev Cache : Type := List (String × FunctionPolicy)

def lookupC (c : Cache) (k : String) : Option FunctionPolicy :=
  match c with
  | [] => Option.none
  | (k', v) :: rest => if k' == k then Option.some v else lookupC rest k

/-- The `for (var i = 0; !rules && i < partialNames.length; i++)` loop:
the first configured entry for a candidate name wins. -/
def firstHit (tbl : List (String × FunctionPolicy)) : List String → Option FunctionPolicy
  | [] => Option.none
  | nm :: rest =>
    match lookupC tbl nm with
    | Option.some p => Option.some p
    | Option.none => firstHit tbl rest

/-- `Rules.prototype._getWithCache`: consult the cache under the exact full
name (cached policies are objects, hence truthy); on a miss take the first
configured entry among the candidate names and cache the result — or the
empty policy — under the full name. -/
def getWithCache (tbl : List (String × FunctionPolicy)) (cache : Cache) (n : Node) :
    FunctionPolicy × Cache :=
  let fullName := getFullItemName n
  match lookupC cache fullName with
  | Option.some p => (p, cache)
  | Option.none =>
    let p := (firstHit tbl (getRuleNames n)).getD emptyPolicy
    (p, (fullName, p) :: cache)

/-- `Rules.prototype.getFunctionRules`. -/
def getFunctionRules (cfg : Config) (cache : Cache) (n : Node) : FunctionPolicy × Cache :=
  getWithCache cfg.functionRules cache n

/-- `Rules.prototype.get`: function rules for a call expression, the empty
rule object for everything else. -/
def rulesGet (cfg : Config) (cache : Cache) (n : Node) : FunctionPolicy × Cache :=
  match n with
  | .call _ _ _ => getFunctionRules cfg cache n
  | _ => (emptyPolicy, cache)

/-! ## `tree.isParameter` and the parent-function walk -/

/-- `tree.isParameter node expr`: is the node in a value-carrying position
of `expr`?  The identity tests of the source (`expr.right === node` …)
become edge tests.  Node kinds outside the enumerated list fall through to
`return true`. -/
def isParameter (parent : Node) (e : Edge) : Bool :=
  match parent with
  | .call _ _ _ => e == .callArg
  | .assign _ _ => e == .assignR
  | .declarator _ _ => e == .declInit
  | .prop _ _ => e == .propValue
  | .arrayE _ _ => e == .arrayElem
  | .funcE _ _ _ => false
  | .cond _ _ _ => e == .condCons || e == .condAlt
  | .arrow _ _ => e == .arrowBody
  | _ => true

def isFuncNode : Node → Bool
  | .funcE _ _ _ => true
  | .funcDecl _ _ _ => true
  | .arrow _ _ => true
  | _ => false

def funcIdOf : Node → OptNode
  | .funcE i _ _ => i
  | .funcDecl i _ _ => i
  | _ => .none

/-- Once `tree.getParentFunctionIdentifier` has found the closest enclosing
function (which may be the starting node itself): its own `id`, or the
variable/assignment target it is being bound to.  The result carries the
ancestor chain of the returned identifier node. -/
def funcIdResolve (n : Node) (chain : List Anc) : Option (Node × List Anc) :=
  match funcIdOf n with
  | .some i => Option.some (i, (n, .funcId) :: chain)
  | .none =>
    match chain with
    | (.declarator i ini, _) :: rest =>
      Option.some (i, (.declarator i ini, .declId) :: rest)
    | (.assign l r, _) :: rest =>
      Option.some (l, (.assign l r, .assignL) :: rest)
    | _ => Option.none

/-- `tree.getParentFunctionIdentifier`: walk from the node (inclusive) up
to the closest function expression/declaration/arrow and resolve its
identifier. -/
def getParentFunctionIdentifier : Node → List Anc → Option (Node × List Anc)
  | n, [] => if isFuncNode n then funcIdResolve n [] else Option.none
  | n, (p, e) :: rest =>
    if isFuncNode n then funcIdResolve n ((p, e) :: rest)
    else getParentFunctionIdentifier p rest

/-! ## Comment-safety resolution -/

/-- `nodeHasSafeComment`, read off the recorded flag. -/
def safeFlag : Node → Bool
  | .ident _ s => s
  | .lit _ _ s => s
  | .member _ _ _ s => s
  | .call _ _ s => s
  | .binary _ _ s _ => s
  | .arrayE _ s => s
  | _ => false

/-- The node kinds through which `isCommentedSafe`'s while-loop continues. -/
def commentClimbKind : Node → Bool
  | .arrayE _ _ => true
  | .ident _ _ => true
  | .lit _ _ _ => true
  | .call _ _ _ => true
  | .binary _ _ _ _ => true
  | .member _ _ _ _ => true
  | _ => false

/-- `hasParentheses` (token before the node is an opening parenthesis),
read off the recorded flag; the source only ever queries it on binary
expressions. -/
def hasParens : Node → Bool
  | .binary _ _ _ p => p
  | _ => false

def isBinaryNode : Node → Bool
  | .binary _ _ _ _ => true
  | _ => false

/-- The `while (parent && parent.type === 'BinaryExpression' &&
!hasParentheses(parent)) parent = parent.parent;` climb of
`getCommentParent`, followed by its binary-expression check. -/
def climbBinary : Node → List Anc → Option (Node × List Anc)
  | p, [] =>
    if isBinaryNode p then
      (if hasParens p then Option.some (p, []) else Option.none)
    else Option.none
  | p, (q, e) :: rest =>
    if isBinaryNode p then
      (if hasParens p then Option.some (p, (q, e) :: rest) else climbBinary q rest)
    else Option.none

/-- `getCommentParent`: the practical parent for comment inheritance — no
parent for a call expression; for a binary parent, the parent itself when
the node is its left operand, otherwise the closest parenthesized binary
ancestor; the syntactic parent in every other case. -/
def getCommentParent : Node → List Anc → Option (Node × List Anc)
  | _, [] => Option.none
  | _, (p, e) :: rest =>
    match p with
    | .call _ _ _ => Option.none
    | .binary l r s par =>
      if e == .binL then Option.some (.binary l r s par, rest)
      else climbBinary (.binary l r s par) rest
    | _ => Option.some (p, rest)

/-- Fuel-indexed body of `isCommentedSafe`; each comment-parent step
consumes at least one ancestor, so `chain.length + 1` steps always cover
the walk of the source (which terminates because parents strictly ascend
the finite tree). -/
def isCommentedSafeAux : Nat → Node → List Anc → Bool
  | 0, _, _ => false
  | fuel + 1, n, chain =>
    if commentClimbKind n then
      if safeFlag n then true
      else
        match getCommentParent n chain with
        | Option.none => false
        | Option.some (p, rest) => isCommentedSafeAux fuel p rest
    else false

/-- `isCommentedSafe`. -/
def isCommentedSafe (n : Node) (chain : List Anc) : Bool :=
  isCommentedSafeAux (chain.length + 1) n chain

/-! ## The rule engine (`no-mixed-html`) -/

/-- Diagnostic kinds, one per message template of the rule. -/
inductive DiagKind : Type where
  | nonHtmlVariable
  | nonHtmlFunction
  | htmlPassedToFunction
  | unencodedInput
  | unencodedReturn
  deriving DecidableEq

/-- A reported finding: its kind and the node passed to `context.report`
(the interpolated identifier text is presentation only). -/
structure Diag where
  kind : DiagKind
  node : Node
  deriving DecidableEq

/-- A sink frame of the expression stack (`{ node: node }`, plus the `xss`
flag that candidate resolution may attach). -/
structure Frame where
  node : Node
  xss : Bool
  deriving DecidableEq

/-- The rule instance's mutable state: the expression stack (head = top),
the `Rules` lookup cache, and the diagnostics reported so far (in report
order). -/
structure AState where
  stack : List Frame
  cache : Cache
  diags : List Diag
  deriving DecidableEq

def isLowerAZ (c : Char) : Bool := 'a' ≤ c && c ≤ 'z'

/-- `/<\/?[a-z]/.exec(value)`: the value contains `<`, an optional `/`,
then a lowercase letter. -/
def hasHtmlTagL : List Char → Bool
  | [] => false
  | c :: rest =>
    (c == '<' &&
      (match rest with
       | '/' :: d :: _ => isLowerAZ d
       | d :: _ => isLowerAZ d
       | [] => false)) || hasHtmlTagL rest

def hasHtmlTag (s : String) : Bool := hasHtmlTagL s.data

/-- `isHtmlVariable`: resolve the node to its identifier and test the name
against the HTML-variable pattern set; false when nothing resolves. -/
def isHtmlVariable (cfg : Config) (n : Node) : Bool :=
  match getIdentifier n with
  | Option.some (.ident nm _) => reAny nm cfg.htmlVariableRules
  | _ => false

/-- `isHtmlFunction`: same resolution against the function naming rules. -/
def isHtmlFunction (cfg : Config) (n : Node) : Bool :=
  match getIdentifier n with
  | Option.some (.ident nm _) => reAny nm cfg.htmlFunctionRules
  | _ => false

/-- `isHtmlOutputFunction`: the policy's `htmlOutput` flag, or the full
item name matching the HTML-function naming rules. -/
def isHtmlOutputFunction (cfg : Config) (cache : Cache) (f : Node) : Bool × Cache :=
  let (rules, c1) := getFunctionRules cfg cache f
  if rules.htmlOutput then (true, c1)
  else (reAny (getFullItemName f) cfg.htmlFunctionRules, c1)

/-- `functionAcceptsHtml`: the policy's `htmlInput` flag. -/
def functionAcceptsHtml (cfg : Config) (cache : Cache) (f : Node) : Bool × Cache :=
  let (rules, c1) := getFunctionRules cfg cache f
  (rules.htmlInput, c1)

/-- `getPassthrough`: a call expression's passthrough policy; false for
every other node kind (no cache access then). -/
def getPassthrough (cfg : Config) (cache : Cache) (n : Node) : Option Passthrough × Cache :=
  match n with
  | .call c a s =>
    let (rules, c1) := getFunctionRules cfg cache (.call c a s)
    (rules.passthrough, c1)
  | _ => (Option.none, cache)

mutual
/-- `getDescendants`: the flat list of leaf expressions that determine the
node's runtime value, each paired with its ancestor chain.  `hr` is the
`_hasRecursed` flag: it is set when recursing into binary operands or
array elements and passed through unchanged for assignment and
conditional unwrapping. -/
def getDescendants (cfg : Config) : Node → List Anc → Bool → Cache →
    (List (Node × List Anc) × Cache)
  | n, chain, hr, cache =>
    let pc := getPassthrough cfg cache n
    match pc.1 with
    | Option.some pt =>
      -- Passthrough call: recurse into the callee's object and/or the
      -- arguments instead of treating the call as terminal.
      (match n with
       | .call callee args s =>
         let op :=
           if pt.obj then
             gdObj cfg callee ((.call callee args s, .callCallee) :: chain) hr pc.2
           else ([], pc.2)
         let ap :=
           if pt.args then
             gdList cfg args (.call callee args s, .callArg) chain hr op.2
           else ([], op.2)
         (op.1 ++ ap.1, ap.2)
       | _ => ([], pc.2))  -- unreachable: getPassthrough is none off calls
    | Option.none =>
      match n with
      | .arrayE elems s =>
        if hr then ([(.arrayE elems s, chain)], pc.2)
        else gdList cfg elems (.arrayE elems s, .arrayElem) chain true pc.2
      | .binary l r s pa =>
        let d1 := getDescendants cfg l ((.binary l r s pa, .binL) :: chain) true pc.2
        let d2 := getDescendants cfg r ((.binary l r s pa, .binR) :: chain) true d1.2
        (d1.1 ++ d2.1, d2.2)
      | .assign l r =>
        -- the assignment's left identifier is the descendant; the
        -- assignment itself is checked by its own frame
        getDescendants cfg l ((.assign l r, .assignL) :: chain) hr pc.2
      | .cond tt cc aa =>
        -- alternate first, then consequent, in source order
        let d1 := getDescendants cfg aa ((.cond tt cc aa, .condAlt) :: chain) hr pc.2
        let d2 := getDescendants cfg cc ((.cond tt cc aa, .condCons) :: chain) hr d1.2
        (d1.1 ++ d2.1, d2.2)
      | .arrow _ _ => ([], pc.2)
      | .declarator _ _ => ([], pc.2)
      | .prop _ _ => ([], pc.2)
      | .ret _ => ([], pc.2)
      | .block _ => ([], pc.2)
      | .exprStmt _ => ([], pc.2)
      | .varDecl _ => ([], pc.2)
      | .funcDecl _ _ _ => ([], pc.2)
      | m => ([(m, chain)], pc.2)
        -- call (non-passthrough), new, this, object, function expression,
        -- unary, update, member, sequence, literal, identifier — and an
        -- array expression reached with `hr` set is handled above

/-- `getDescendants(node.callee.object, …)` for the object-passthrough
step: the callee's object when the callee is a member expression (the
source would fault on the undefined object of any other callee, so that
case contributes nothing).  The chain passed in already starts at the
call. -/
def gdObj (cfg : Config) : Node → List Anc → Bool → Cache →
    (List (Node × List Anc) × Cache)
  | .member o pr comp ms, chain, hr, cache =>
    getDescendants cfg o ((.member o pr comp ms, .memObj) :: chain) hr cache
  | _, _, _, cache => ([], cache)

/-- `forEach` recursion of `getDescendants` over element/argument lists;
`pe` is the ancestor entry (parent, edge) shared by the elements. -/
def gdList (cfg : Config) : NodeList → Anc → List Anc → Bool → Cache →
    (List (Node × List Anc) × Cache)
  | .nil, _, _, _, cache => ([], cache)
  | .cons h t, pe, chain, hr, cache =>
    let d1 := getDescendants cfg h (pe :: chain) hr cache
    let d2 := gdList cfg t pe chain hr d1.2
    (d1.1 ++ d2.1, d2.2)
end

/-- `isXssSafe`: commented safe, a literal or function expression, an
HTML-named identifier/member, or a call to an HTML-output function. -/
def isXssSafe (cfg : Config) (n : Node) (chain : List Anc) (cache : Cache) :
    Bool × Cache :=
  if isCommentedSafe n chain then (true, cache)
  else
    match n with
    | .lit _ _ _ => (true, cache)
    | .funcE _ _ _ => (true, cache)
    | .ident nm s => (isHtmlVariable cfg (.ident nm s), cache)
    | .member o p c s => (isHtmlVariable cfg (.member o p c s), cache)
    | .call callee _ _ => isHtmlOutputFunction cfg cache callee
    | _ => (false, cache)

/-- The `do { … } while (parent !== top)` walk of `canInfectXss`: every
step from the leaf to the top frame's node must be a value-carrying
position.  An exhausted chain cannot occur on real traversals (the top
frame's node is always a proper ancestor). -/
def canInfectGo : Node → List Anc → Node → Bool
  | _, [], _ => false
  | _, (p, e) :: rest, top =>
    if !(isParameter p e) then false
    else if p == top then true
    else canInfectGo p rest top

/-- `canInfectXss`: nothing to infect on an empty stack; otherwise the
parameter-chain walk up to the top frame's node. -/
def canInfectXss (n : Node) (chain : List Anc) (stack : List Frame) : Bool :=
  match stack with
  | [] => false
  | top :: _ => canInfectGo n chain top.node

/-- `getPathFromParent(node, 'CallExpression')` as consumed by
`getXssCandidateParent`: `some isCallee` where `isCallee` says whether the
path child of the nearest enclosing call is its callee.  When the node is
itself a call the path has no second element and `isCallee` is false.
`none` (no call on the path) would make the source fault on `path[0]`;
it cannot occur because a call frame on the stack is an ancestor. -/
def pathToCall : Node → List Anc → Option Bool
  | .call _ _ _, _ => Option.some false
  | _, [] => Option.none
  | _, (p, e) :: rest =>
    match p with
    | .call _ _ _ => Option.some (e == .callCallee)
    | _ => pathToCall p rest

/-- Loop body of `getXssCandidateParent`, scanning the stack from the top;
returns the index (from the top) of the candidate frame. -/
def gxcpGo (cfg : Config) (isCallee? : Option Bool) :
    List Frame → Nat → Cache → (Option Nat × Cache)
  | [], _, cache => (Option.none, cache)
  | f :: rest, i, cache =>
    match f.node with
    | .call c a s =>
      let rc := rulesGet cfg cache (.call c a s)
      (match rc.1.passthrough with
       | Option.none => (Option.some i, rc.2)
       | Option.some pt =>
         if pt.obj && pt.args then gxcpGo cfg isCallee? rest (i + 1) rc.2
         else
           let isCallee := isCallee?.getD false
           if isCallee && pt.obj then gxcpGo cfg isCallee? rest (i + 1) rc.2
           else if !isCallee && pt.args then gxcpGo cfg isCallee? rest (i + 1) rc.2
           else (Option.some i, rc.2))
    | _ => (Option.some i, cache)

/-- `getXssCandidateParent`: the first frame from the top that is not a
call, or a call that is not a full passthrough nor transparent in the
leaf's position; `none` when every frame passes the leaf through. -/
def getXssCandidateParent (cfg : Config) (n : Node) (chain : List Anc)
    (stack : List Frame) (cache : Cache) : Option Nat × Cache :=
  gxcpGo cfg (pathToCall n chain) stack 0 cache

/-- Set the `xss` flag of the frame at the given index from the top. -/
def markXssAt : List Frame → Nat → List Frame
  | [], _ => []
  | f :: rest, 0 => { f with xss := true } :: rest
  | f :: rest, i + 1 => f :: markXssAt rest i

/-- `infectParentConditional`: gated by a non-empty stack, the node not
being commented safe, and the parameter-chain check; then the condition
runs and, when it holds, the candidate frame (if any) is marked. -/
def infectParentConditional (cfg : Config) (condEval : Node → Cache → Bool × Cache)
    (n : Node) (chain : List Anc) (st : AState) : AState :=
  if st.stack.isEmpty then st
  else if isCommentedSafe n chain then st
  else if !(canInfectXss n chain st.stack) then st
  else
    let bc := condEval n st.cache
    if bc.1 then
      let cand := getXssCandidateParent cfg n chain st.stack bc.2
      match cand.1 with
      | Option.some i => { st with stack := markXssAt st.stack i, cache := cand.2 }
      | Option.none => { st with cache := cand.2 }
    else { st with cache := bc.2 }

/-- Fuel-indexed `usesHtml` (the array-expression case recurses to the
syntactic parent, consuming one ancestor per step, so `chain.length + 1`
steps always suffice). -/
def usesHtmlAux (cfg : Config) : Nat → Node → List Anc → Cache → Bool × Cache
  | 0, _, _, cache => (false, cache)
  | fuel + 1, n, chain, cache =>
    match n with
    | .call c _ _ => functionAcceptsHtml cfg cache c
    | .assign l _ => (isHtmlVariable cfg l, cache)
    | .declarator i _ => (isHtmlVariable cfg i, cache)
    | .prop k _ => (isHtmlVariable cfg k, cache)
    | .arrayE _ _ =>
      (match chain with
       | [] => (false, cache)
         -- `usesHtml(node.parent)` with an undefined parent would fault;
         -- unreachable under the visitor, where expressions sit in statements
       | (p, _) :: rest => usesHtmlAux cfg fuel p rest cache)
    | .ret a =>
      (match getParentFunctionIdentifier (.ret a) chain with
       | Option.none => (false, cache)
       | Option.some (fid, _) => (isHtmlFunction cfg fid, cache))
    | .arrow ps b =>
      (match getParentFunctionIdentifier (.arrow ps b) chain with
       | Option.none => (false, cache)
       | Option.some (fid, _) => (isHtmlFunction cfg fid, cache))
    | _ => (false, cache)

/-- `usesHtml`: does the node's own shape mark it as an HTML context? -/
def usesHtml (cfg : Config) (n : Node) (chain : List Anc) (cache : Cache) :
    Bool × Cache :=
  usesHtmlAux cfg (chain.length + 1) n chain cache

/-- The per-terminal check and report of `checkForXss`'s `forEach` body,
after the safe-allowlist tests: an unsafe terminal is reported as
unencoded input, or — when it is itself a call — as an unencoded return
value, with the report anchored at the callee. -/
def checkOneTerminal (cfg : Config) (cn : Node) (cchain : List Anc) (st : AState) :
    AState :=
  let sc := isXssSafe cfg cn cchain st.cache
  if sc.1 then { st with cache := sc.2 }
  else
    match cn with
    | .call callee _ _ =>
      { st with cache := sc.2, diags := st.diags ++ [⟨.unencodedReturn, callee⟩] }
    | _ =>
      { st with cache := sc.2, diags := st.diags ++ [⟨.unencodedInput, cn⟩] }

/-- The `forEach` of `checkForXss` over the extracted terminals, honoring
the target context's safe-allowlist first. -/
def checkTerminals (cfg : Config) (targetRules : FunctionPolicy) :
    List (Node × List Anc) → AState → AState
  | [], st => st
  | (cn, cchain) :: rest, st =>
    let st' :=
      match targetRules.safe with
      | .all => st
      | .names l =>
        if l.contains (getNodeName cn) then st else checkOneTerminal cfg cn cchain st
      | .noneR => checkOneTerminal cfg cn cchain st
    checkTerminals cfg targetRules rest st'

/-- `checkForXss`: skip function/object expressions, then validate every
terminal of the node against the target context's rules. -/
def checkForXss (cfg : Config) (n : Node) (chain : List Anc) (target : Node)
    (st : AState) : AState :=
  match n with
  | .funcE _ _ _ => st
  | .objectE _ => st
  | _ =>
    let tr := rulesGet cfg st.cache target
    let ds := getDescendants cfg n chain false tr.2
    checkTerminals cfg tr.1 ds.1 { st with cache := ds.2 }

/-- `forEach` of the call-expression validator over the arguments. -/
def checkForXssList (cfg : Config) : NodeList → Anc → List Anc → Node → AState → AState
  | .nil, _, _, _, st => st
  | .cons h t, pe, chain, target, st =>
    checkForXssList cfg t pe chain target (checkForXss cfg h (pe :: chain) target st)

/-- `checkHtmlVariable`: report when the node fails the safety test. -/
def checkHtmlVariable (cfg : Config) (n : Node) (chain : List Anc) (st : AState) :
    AState :=
  let sc := isXssSafe cfg n chain st.cache
  if sc.1 then { st with cache := sc.2 }
  else { st with cache := sc.2, diags := st.diags ++ [⟨.nonHtmlVariable, n⟩] }

/-- `checkHtmlFunction`: like `checkHtmlVariable` but reported at the
fault node. -/
def checkHtmlFunction (cfg : Config) (n : Node) (chain : List Anc) (fault : Node)
    (st : AState) : AState :=
  let sc := isXssSafe cfg n chain st.cache
  if sc.1 then { st with cache := sc.2 }
  else { st with cache := sc.2, diags := st.diags ++ [⟨.nonHtmlFunction, fault⟩] }

/-- `checkFunctionAcceptsHtml`: report unless the callee's policy has
`htmlInput`. -/
def checkFunctionAcceptsHtml (cfg : Config) (n : Node) (st : AState) : AState :=
  let ac := functionAcceptsHtml cfg st.cache n
  if ac.1 then { st with cache := ac.2 }
  else { st with cache := ac.2, diags := st.diags ++ [⟨.htmlPassedToFunction, n⟩] }

/-- `pushNode`. -/
def pushNode (n : Node) (st : AState) : AState :=
  { st with stack := ⟨n, false⟩ :: st.stack }

/-- The shared prologue of `exitNode` and `markParentXSS`: pop the frame
and test `!expr.xss && !usesHtml(expr.node)`; JavaScript short-circuit —
`usesHtml` (and its cache updates) only run when the frame is untainted. -/
def popAndGate (cfg : Config) (n : Node) (chain : List Anc) (st : AState) :
    Bool × AState :=
  match st.stack with
  | [] => (false, st)  -- cannot occur: exits are paired with pushes
  | f :: rest =>
    let st0 := { st with stack := rest }
    if f.xss then (true, st0)
    else
      let uc := usesHtml cfg n chain st0.cache
      (uc.1, { st0 with cache := uc.2 })

/-- `exitNode`: pop the frame and, when tainted or an HTML context by its
own shape and not commented safe, run the sink validator of its kind. -/
def exitNode (cfg : Config) (n : Node) (chain : List Anc) (st : AState) : AState :=
  let g := popAndGate cfg n chain st
  if !g.1 then g.2
  else if isCommentedSafe n chain then g.2
  else
    match n with
    | .call callee args s =>
      let st2 := checkFunctionAcceptsHtml cfg callee g.2
      checkForXssList cfg args (.call callee args s, .callArg) chain (.call callee args s) st2
    | .assign l r =>
      let st2 := checkHtmlVariable cfg l ((.assign l r, .assignL) :: chain) g.2
      checkForXss cfg r ((.assign l r, .assignR) :: chain) (.assign l r) st2
    | .declarator i ini =>
      let st2 := checkHtmlVariable cfg i ((.declarator i ini, .declId) :: chain) g.2
      (match ini with
       | .some e =>
         checkForXss cfg e ((.declarator i ini, .declInit) :: chain) (.declarator i ini) st2
       | .none => st2)
    | .prop k v =>
      let st2 := checkHtmlVariable cfg k ((.prop k v, .propKey) :: chain) g.2
      checkForXss cfg v ((.prop k v, .propValue) :: chain) (.prop k v) st2
    | .ret a =>
      (match getParentFunctionIdentifier (.ret a) chain with
       | Option.none => g.2
       | Option.some (fid, fchain) =>
         let st2 := checkHtmlFunction cfg fid fchain (.ret a) g.2
         match a with
         | .some e => checkForXss cfg e ((.ret a, .retArg) :: chain) (.ret a) st2
         | .none => st2)
           -- the source passes the null argument straight to `checkForXss`
           -- (which would fault on it); a bare `return` is not validated
    | .arrow ps b =>
      (match getParentFunctionIdentifier (.arrow ps b) chain with
       | Option.none => g.2
       | Option.some (fid, fchain) =>
         let st2 := checkHtmlFunction cfg fid fchain fid g.2
         checkForXss cfg b ((.arrow ps b, .arrowBody) :: chain) (.arrow ps b) st2)
    | _ => g.2

/-- `markParentXSS` (the array-expression exit handler): pop the frame
and, when it carries HTML, mark the surviving candidate frame. -/
def markParentXSS (cfg : Config) (n : Node) (chain : List Anc) (st : AState) :
    AState :=
  let g := popAndGate cfg n chain st
  if !g.1 then g.2
  else
    let cand := getXssCandidateParent cfg n chain g.2.stack g.2.cache
    match cand.1 with
    | Option.some i => { g.2 with stack := markXssAt g.2.stack i, cache := cand.2 }
    | Option.none => { g.2 with cache := cand.2 }

/-- The condition bound to the `Literal` handler: non-regex, not commented
safe, and containing an HTML-tag-like fragment. -/
def literalInfects (chain : List Anc) (node : Node) (cache : Cache) : Bool × Cache :=
  match node with
  | .lit v rx s =>
    (!rx && !(isCommentedSafe (.lit v rx s) chain) && hasHtmlTag v, cache)
  | _ => (false, cache)

/-- The condition used at call-expression enter: the callee is an
HTML-output function. -/
def callInfects (cfg : Config) (node : Node) (cache : Cache) : Bool × Cache :=
  match node with
  | .call callee _ _ => isHtmlOutputFunction cfg cache callee
  | _ => (false, cache)

/-- The enter handlers of the visitor: sink-shaped nodes push a frame;
call expressions first try to infect an ancestor frame, then push;
literals and identifiers only try to infect. -/
def enterStep (cfg : Config) (n : Node) (chain : List Anc) (st : AState) : AState :=
  match n with
  | .assign _ _ => pushNode n st
  | .declarator _ _ => pushNode n st
  | .prop _ _ => pushNode n st
  | .ret _ => pushNode n st
  | .arrow _ _ => pushNode n st
  | .arrayE _ _ => pushNode n st
  | .call _ _ _ => pushNode n (infectParentConditional cfg (callInfects cfg) n chain st)
  | .lit _ _ _ => infectParentConditional cfg (literalInfects chain) n chain st
  | .ident _ _ =>
    infectParentConditional cfg (fun node cache => (isHtmlVariable cfg node, cache)) n chain st
  | _ => st

/-- The exit handlers: `exitNode` for the sink kinds, `markParentXSS` for
array expressions. -/
def exitStep (cfg : Config) (n : Node) (chain : List Anc) (st : AState) : AState :=
  match n with
  | .assign _ _ => exitNode cfg n chain st
  | .declarator _ _ => exitNode cfg n chain st
  | .prop _ _ => exitNode cfg n chain st
  | .ret _ => exitNode cfg n chain st
  | .arrow _ _ => exitNode cfg n chain st
  | .call _ _ _ => exitNode cfg n chain st
  | .arrayE _ _ => markParentXSS cfg n chain st
  | _ => st

mutual
/-- The depth-first visitor: enter the node, visit its children in estree
visitor-key order, exit the node. -/
def walk (cfg : Config) : Node → List Anc → AState → AState
  | n, chain, st =>
    let st1 := enterStep cfg n chain st
    let st2 :=
      match n with
      | .ident _ _ => st1
      | .lit _ _ _ => st1
      | .thisE => st1
      | .member o p comp s =>
        let sa := walk cfg o ((.member o p comp s, .memObj) :: chain) st1
        walk cfg p ((.member o p comp s, .memProp) :: chain) sa
      | .call c a s =>
        let sa := walk cfg c ((.call c a s, .callCallee) :: chain) st1
        walkList cfg a (.call c a s, .callArg) chain sa
      | .newE c a =>
        let sa := walk cfg c ((.newE c a, .newCallee) :: chain) st1
        walkList cfg a (.newE c a, .newArg) chain sa
      | .binary l r s pa =>
        let sa := walk cfg l ((.binary l r s pa, .binL) :: chain) st1
        walk cfg r ((.binary l r s pa, .binR) :: chain) sa
      | .unary a => walk cfg a ((.unary a, .unaryArg) :: chain) st1
      | .updateE a => walk cfg a ((.updateE a, .updateArg) :: chain) st1
      | .seqE es => walkList cfg es (.seqE es, .seqElem) chain st1
      | .assign l r =>
        let sa := walk cfg l ((.assign l r, .assignL) :: chain) st1
        walk cfg r ((.assign l r, .assignR) :: chain) sa
      | .cond tt cc aa =>
        let sa := walk cfg tt ((.cond tt cc aa, .condTest) :: chain) st1
        let sb := walk cfg cc ((.cond tt cc aa, .condCons) :: chain) sa
        walk cfg aa ((.cond tt cc aa, .condAlt) :: chain) sb
      | .arrayE el s => walkList cfg el (.arrayE el s, .arrayElem) chain st1
      | .objectE ps => walkList cfg ps (.objectE ps, .objProp) chain st1
      | .funcE i ps b =>
        let sa := walkOpt cfg i (.funcE i ps b, .funcId) chain st1
        let sb := walkList cfg ps (.funcE i ps b, .funcParam) chain sa
        walkList cfg b (.funcE i ps b, .funcBody) chain sb
      | .funcDecl i ps b =>
        let sa := walkOpt cfg i (.funcDecl i ps b, .funcId) chain st1
        let sb := walkList cfg ps (.funcDecl i ps b, .funcParam) chain sa
        walkList cfg b (.funcDecl i ps b, .funcBody) chain sb
      | .arrow ps b =>
        let sa := walkList cfg ps (.arrow ps b, .arrowParam) chain st1
        walk cfg b ((.arrow ps b, .arrowBody) :: chain) sa
      | .declarator i ini =>
        let sa := walk cfg i ((.declarator i ini, .declId) :: chain) st1
        walkOpt cfg ini (.declarator i ini, .declInit) chain sa
      | .prop k v =>
        let sa := walk cfg k ((.prop k v, .propKey) :: chain) st1
        walk cfg v ((.prop k v, .propValue) :: chain) sa
      | .ret a => walkOpt cfg a (.ret a, .retArg) chain st1
      | .block ss => walkList cfg ss (.block ss, .blockStmt) chain st1
      | .exprStmt e => walk cfg e ((.exprStmt e, .exprStmtE) :: chain) st1
      | .varDecl ds => walkList cfg ds (.varDecl ds, .varDeclD) chain st1
    exitStep cfg n chain st2

def walkList (cfg : Config) : NodeList → Anc → List Anc → AState → AState
  | .nil, _, _, st => st
  | .cons h t, pe, chain, st =>
    walkList cfg t pe chain (walk cfg h (pe :: chain) st)

def walkOpt (cfg : Config) : OptNode → Anc → List Anc → AState → AState
  | .none, _, _, st => st
  | .some e, pe, chain, st => walk cfg e (pe :: chain) st
end

/-- The fresh per-instantiation state of the rule: an empty expression
stack, an empty lookup cache, no diagnostics. -/
def freshState : AState := ⟨[], [], []⟩

/-- Run the visitor over a program's top-level statements against a given
starting state. -/
def runWith (cfg : Config) (prog : List Node) (st : AState) : AState :=
  prog.foldl (fun s stmt => walk cfg stmt [] s) st

/-- One rule instantiation applied to a program: fresh state, full
traversal, reported diagnostics in order. -/
def analyze (cfg : Config) (prog : List Node) : List Diag :=
  (runWith cfg prog freshState).diags

/-! ## Helper lemmas -/

mutual
/-- Every terminal produced by `getDescendants` is a subterm of the input:
its size never exceeds the input's size. -/
theorem gd_size_le (cfg : Config) (n : Node) (chain : List Anc) (hr : Bool)
    (cache : Cache) :
    ∀ t ∈ (getDescendants cfg n chain hr cache).1, sizeOf t.1 ≤ sizeOf n := by
  intro t ht
  cases n with
  | call callee args s =>
    simp only [getDescendants] at ht
    rcases hpt : (getPassthrough cfg cache (.call callee args s)).1 with _ | pt <;>
      rw [hpt] at ht
    · simp only [List.mem_singleton] at ht; subst ht; simp
    · simp only [List.mem_append] at ht
      rcases ht with h | h
      · by_cases hobj : pt.obj = true
        · rw [if_pos hobj] at h
          have hb := gdObj_size_lt cfg callee _ hr _ t h
          simp only [Node.call.sizeOf_spec]
          omega
        · rw [if_neg hobj] at h; simp at h
      · by_cases hargs : pt.args = true
        · rw [if_pos hargs] at h
          have hb := gdList_size_lt cfg args _ chain hr _ t h
          simp only [Node.call.sizeOf_spec]
          omega
        · rw [if_neg hargs] at h; simp at h
  | arrayE elems s =>
    simp only [getDescendants, getPassthrough] at ht
    by_cases h : hr = true
    · rw [if_pos h] at ht
      simp only [List.mem_singleton] at ht; subst ht; simp
    · rw [if_neg h] at ht
      have hb := gdList_size_lt cfg elems _ chain true _ t ht
      simp only [Node.arrayE.sizeOf_spec]
      omega
  | binary l r s pa =>
    simp only [getDescendants, getPassthrough, List.mem_append] at ht
    rcases ht with h | h
    · have hb := gd_size_le cfg l _ true _ t h
      simp only [Node.binary.sizeOf_spec]; omega
    · have hb := gd_size_le cfg r _ true _ t h
      simp only [Node.binary.sizeOf_spec]; omega
  | assign l r =>
    simp only [getDescendants, getPassthrough] at ht
    have hb := gd_size_le cfg l _ hr _ t ht
    simp only [Node.assign.sizeOf_spec]; omega
  | cond tt cc aa =>
    simp only [getDescendants, getPassthrough, List.mem_append] at ht
    rcases ht with h | h
    · have hb := gd_size_le cfg aa _ hr _ t h
      simp only [Node.cond.sizeOf_spec]; omega
    · have hb := gd_size_le cfg cc _ hr _ t h
      simp only [Node.cond.sizeOf_spec]; omega
  | ident nm sf =>
    simp only [getDescendants, getPassthrough, List.mem_singleton] at ht; subst ht; simp
  | lit v rx sf =>
    simp only [getDescendants, getPassthrough, List.mem_singleton] at ht; subst ht; simp
  | thisE =>
    simp only [getDescendants, getPassthrough, List.mem_singleton] at ht; subst ht; simp
  | member o pr cm ms =>
    simp only [getDescendants, getPassthrough, List.mem_singleton] at ht; subst ht; simp
  | newE c2 a2 =>
    simp only [getDescendants, getPassthrough, List.mem_singleton] at ht; subst ht; simp
  | unary a2 =>
    simp only [getDescendants, getPassthrough, List.mem_singleton] at ht; subst ht; simp
  | updateE a2 =>
    simp only [getDescendants, getPassthrough, List.mem_singleton] at ht; subst ht; simp
  | seqE es =>
    simp only [getDescendants, getPassthrough, List.mem_singleton] at ht; subst ht; simp
  | objectE ps =>
    simp only [getDescendants, getPassthrough, List.mem_singleton] at ht; subst ht; simp
  | funcE i ps b =>
    simp only [getDescendants, getPassthrough, List.mem_singleton] at ht; subst ht; simp
  | funcDecl i ps b => simp only [getDescendants, getPassthrough] at ht; simp at ht
  | arrow ps b => simp only [getDescendants, getPassthrough] at ht; simp at ht
  | declarator i ini => simp only [getDescendants, getPassthrough] at ht; simp at ht
  | prop k v => simp only [getDescendants, getPassthrough] at ht; simp at ht
  | ret a2 => simp only [getDescendants, getPassthrough] at ht; simp at ht
  | block ss => simp only [getDescendants, getPassthrough] at ht; simp at ht
  | exprStmt e => simp only [getDescendants, getPassthrough] at ht; simp at ht
  | varDecl ds => simp only [getDescendants, getPassthrough] at ht; simp at ht

/-- Terminals extracted through the object-passthrough step are strictly
smaller than the callee. -/
theorem gdObj_size_lt (cfg : Config) (callee : Node) (chain : List Anc)
    (hr : Bool) (cache : Cache) :
    ∀ t ∈ (gdObj cfg callee chain hr cache).1, sizeOf t.1 < sizeOf callee := by
  intro t ht
  cases callee with
  | member o pr cm ms =>
    rw [gdObj] at ht
    have hb := gd_size_le cfg o _ hr _ t ht
    simp only [Node.member.sizeOf_spec]; omega
  | ident nm sf => simp [gdObj] at ht
  | lit v rx sf => simp [gdObj] at ht
  | thisE => simp [gdObj] at ht
  | call c2 a2 s2 => simp [gdObj] at ht
  | newE c2 a2 => simp [gdObj] at ht
  | binary l r sf pa => simp [gdObj] at ht
  | unary a2 => simp [gdObj] at ht
  | updateE a2 => simp [gdObj] at ht
  | seqE es => simp [gdObj] at ht
  | assign l r => simp [gdObj] at ht
  | cond t2 c2 a2 => simp [gdObj] at ht
  | arrayE el sf => simp [gdObj] at ht
  | objectE ps => simp [gdObj] at ht
  | funcE i ps b => simp [gdObj] at ht
  | funcDecl i ps b => simp [gdObj] at ht
  | arrow ps b => simp [gdObj] at ht
  | declarator i ini => simp [gdObj] at ht
  | prop k v => simp [gdObj] at ht
  | ret a2 => simp [gdObj] at ht
  | block ss => simp [gdObj] at ht
  | exprStmt e => simp [gdObj] at ht
  | varDecl ds => simp [gdObj] at ht

/-- Terminals extracted from a list of elements are strictly smaller than
the list. -/
theorem gdList_size_lt (cfg : Config) (ns : NodeList) (pe : Anc) (chain : List Anc)
    (hr : Bool) (cache : Cache) :
    ∀ t ∈ (gdList cfg ns pe chain hr cache).1, sizeOf t.1 < sizeOf ns := by
  intro t ht
  cases ns with
  | nil => rw [gdList] at ht; simp at ht
  | cons h tl =>
    rw [gdList] at ht
    simp only [List.mem_append] at ht
    rcases ht with hm | hm
    · have hb := gd_size_le cfg h _ hr _ t hm
      simp only [NodeList.cons.sizeOf_spec]; omega
    · have hb := gdList_size_lt cfg tl pe chain hr _ t hm
      simp only [NodeList.cons.sizeOf_spec]; omega
end


/-- Unfolding of `getPassthrough` at a call expression. -/
theorem getPassthrough_call (cfg : Config) (cache : Cache) (c : Node) (a : NodeList)
    (s : Bool) :
    getPassthrough cfg cache (.call c a s) =
      ((getFunctionRules cfg cache (.call c a s)).1.passthrough,
       (getFunctionRules cfg cache (.call c a s)).2) := rfl

/-! ## Claim C1: array literals in terminal extraction -/

/-- A top-level array literal holding an HTML-like string literal. -/
def c1arr : Node := .arrayE (.cons (.lit "<b>hi</b>" false false) .nil) false

/-- C1 counterexample: the claim is false on the code.  An array literal
passed as the top-level input to `getDescendants` is not returned as a
terminal — its element is extracted instead — while the same array
reached through recursion into a binary chain is returned as a terminal. -/
theorem C1_counterexample :
    (getDescendants defaultConfig c1arr [] false []).1.map Prod.fst
        = [.lit "<b>hi</b>" false false] ∧
    Node.lit "<b>hi</b>" false false ≠ c1arr ∧
    (getDescendants defaultConfig
        (.binary c1arr (.lit "x" false false) false false) [] false []).1.map Prod.fst
        = [c1arr, .lit "x" false false] :=
  ⟨by decide, by decide, by decide⟩

/-- C1 (amended): an array literal is a terminal of `getDescendants`
exactly when it is reached with the has-recursed flag set; with the flag
clear — in particular for the top-level input — each of its elements is
recursed into with the flag set, and the array itself never appears among
the extracted terminals.  Recursing into binary-expression operands sets
the flag; conditional branches pass it through unchanged. -/
theorem C1_array_terminal (cfg : Config) (elems : NodeList) (s : Bool)
    (chain : List Anc) (cache : Cache) :
    getDescendants cfg (.arrayE elems s) chain true cache
        = ([(.arrayE elems s, chain)], cache) ∧
    getDescendants cfg (.arrayE elems s) chain false cache
        = gdList cfg elems (.arrayE elems s, .arrayElem) chain true cache ∧
    (Node.arrayE elems s) ∉
      ((getDescendants cfg (.arrayE elems s) chain false cache).1.map Prod.fst) ∧
    (∀ (l r : Node) (sb pb hr : Bool) (c2 : Cache),
      getDescendants cfg (.binary l r sb pb) chain hr c2 =
        (let d1 := getDescendants cfg l ((.binary l r sb pb, .binL) :: chain) true c2
         let d2 := getDescendants cfg r ((.binary l r sb pb, .binR) :: chain) true d1.2
         (d1.1 ++ d2.1, d2.2))) ∧
    (∀ (tt cc aa : Node) (hr : Bool) (c2 : Cache),
      getDescendants cfg (.cond tt cc aa) chain hr c2 =
        (let d1 := getDescendants cfg aa ((.cond tt cc aa, .condAlt) :: chain) hr c2
         let d2 := getDescendants cfg cc ((.cond tt cc aa, .condCons) :: chain) hr d1.2
         (d1.1 ++ d2.1, d2.2))) := by
  refine ⟨by simp [getDescendants, getPassthrough], ?_, ?_, ?_, ?_⟩
  · simp [getDescendants, getPassthrough]
  · intro hmem
    simp only [List.mem_map] at hmem
    obtain ⟨t, ht, he⟩ := hmem
    have heq : getDescendants cfg (.arrayE elems s) chain false cache
        = gdList cfg elems (.arrayE elems s, .arrayElem) chain true cache := by
      simp [getDescendants, getPassthrough]
    rw [heq] at ht
    have hlt := gdList_size_lt cfg elems _ chain true cache t ht
    rw [he] at hlt
    simp only [Node.arrayE.sizeOf_spec] at hlt
    omega
  · intro l r sb pb hr c2
    simp [getDescendants, getPassthrough]
  · intro tt cc aa hr c2
    simp [getDescendants, getPassthrough]

/-- C1 witness: at a concrete one-element array, the flag-set call returns
the array as terminal and the flag-clear call never does. -/
theorem C1_witness :
    getDescendants defaultConfig
        (.arrayE (.cons (.lit "x" false false) .nil) false) [] true []
      = ([(.arrayE (.cons (.lit "x" false false) .nil) false, [])], []) ∧
    Node.arrayE (.cons (.lit "x" false false) .nil) false ∉
      ((getDescendants defaultConfig
          (.arrayE (.cons (.lit "x" false false) .nil) false) [] false []).1.map
        Prod.fst) :=
  ⟨(C1_array_terminal defaultConfig (.cons (.lit "x" false false) .nil) false [] []).1,
   (C1_array_terminal defaultConfig (.cons (.lit "x" false false) .nil) false [] []).2.2.1⟩

/-! ## Claim C2: identifier resolution in the classifiers -/

/-- C2 counterexample: the claim is false on the code.  A non-computed
member access resolves to its property (`html_obj.plain` resolves to
`plain`, so the HTML-variable classifier rejects it although the object is
HTML-named), and a computed member access resolves to its object. -/
theorem C2_counterexample :
    isHtmlVariable defaultConfig
        (.member (.ident "html_obj" false) (.ident "plain" false) false false) = false ∧
    getIdentifier (.member (.ident "html_obj" false) (.ident "plain" false) false false)
        = Option.some (.ident "plain" false) ∧
    isHtmlVariable defaultConfig
        (.member (.ident "plain" false) (.ident "html_prop" false) true false) = false ∧
    getIdentifier (.member (.ident "plain" false) (.ident "html_prop" false) true false)
        = Option.some (.ident "plain" false) :=
  ⟨by decide, by decide, by decide, by decide⟩

/-- C2 (amended): identifier resolution unwraps a call to its callee and
then resolves a non-computed member access to its property and a computed
member access to its object; when no identifier can be resolved the
HTML-variable and HTML-function classifiers return false. -/
theorem C2_identifier_resolution (cfg : Config) :
    (∀ (o p : Node) (s : Bool), getIdentifier (.member o p false s) =
       (match p with
        | .ident nm ps => Option.some (.ident nm ps)
        | _ => Option.none)) ∧
    (∀ (o p : Node) (s : Bool), getIdentifier (.member o p true s) =
       (match o with
        | .ident nm ps => Option.some (.ident nm ps)
        | _ => Option.none)) ∧
    (∀ (c : Node) (a : NodeList) (s : Bool), getIdentifier (.call c a s) =
       (match c with
        | .member o p cm ms => getIdentifier (.member o p cm ms)
        | .ident nm ps => Option.some (.ident nm ps)
        | _ => Option.none)) ∧
    (∀ n, getIdentifier n = Option.none → isHtmlVariable cfg n = false) ∧
    (∀ n, getIdentifier n = Option.none → isHtmlFunction cfg n = false) := by
  refine ⟨?_, ?_, ?_, ?_, ?_⟩
  · intro o p s; cases p <;> rfl
  · intro o p s; cases o <;> rfl
  · intro c a s
    cases c with
    | member o p cm ms => cases cm <;> rfl
    | ident nm ps => rfl
    | _ => rfl
  · intro n h; unfold isHtmlVariable; rw [h]
  · intro n h; unfold isHtmlFunction; rw [h]

/-- C2 witness: `this` resolves to no identifier and both classifiers
reject it. -/
theorem C2_witness :
    getIdentifier Node.thisE = Option.none ∧
    isHtmlVariable defaultConfig Node.thisE = false ∧
    isHtmlFunction defaultConfig Node.thisE = false :=
  ⟨by decide, (C2_identifier_resolution defaultConfig).2.2.2.1 Node.thisE (by decide),
    (C2_identifier_resolution defaultConfig).2.2.2.2 Node.thisE (by decide)⟩

/-! ## Claim C3: encoded right-hand side of an HTML-named variable -/

/-- `var html = encodeAsHtml(<literal>);` with the default options, the
callee name matching the HTML-output pattern `AsHtml`. -/
def encProg (s : String) (rx : Bool) : List Node :=
  [.varDecl (.cons (.declarator (.ident "html" false)
    (.some (.call (.ident "encodeAsHtml" false)
      (.cons (.lit s rx false) .nil) false))) .nil)]

/-- C3 counterexample: the claim is false on the code.  With an HTML-like
string literal argument the analysis reports one finding — `HTML passed in
to function` at the callee — not zero. -/
theorem C3_counterexample :
    analyze defaultConfig (encProg "<b>x</b>" false)
      = [⟨.htmlPassedToFunction, .ident "encodeAsHtml" false⟩] ∧
    analyze defaultConfig (encProg "<b>x</b>" false) ≠ [] :=
  ⟨by decide, by decide⟩

/-- C3 (amended): for `encode(x)` matching the HTML-output pattern on the
right-hand side of an HTML-named variable, the analysis produces zero
diagnostics when the literal argument does not itself infect the call (a
regex literal, or a string without an HTML-tag-like fragment); an
HTML-like string literal argument instead taints the call frame and yields
exactly one `HTML passed in to function` diagnostic at the callee. -/
theorem C3_encode_rhs (s : String) (rx : Bool) :
    analyze defaultConfig (encProg s rx) =
    (if !rx && hasHtmlTag s then
      [⟨.htmlPassedToFunction, .ident "encodeAsHtml" false⟩]
     else []) := by
  cases rx <;> cases h : hasHtmlTag s <;>
    simp [encProg, analyze, runWith, freshState, walk, walkList, walkOpt, enterStep,
      exitStep, pushNode, infectParentConditional, isCommentedSafe, isCommentedSafeAux,
      commentClimbKind, safeFlag, getCommentParent, climbBinary, canInfectXss,
      canInfectGo, isParameter, literalInfects, callInfects, isHtmlOutputFunction,
      getFunctionRules, getWithCache, getFullItemName, fullNameParts, unwrapCall,
      propName, joinDot, lookupC, firstHit, getRuleNames, ruleNamesGo, getIdentifier,
      emptyPolicy, reAny, matchPattern, patIn, patAt, lowChar, defaultConfig,
      isHtmlVariable, getXssCandidateParent, gxcpGo, pathToCall, markXssAt, exitNode,
      popAndGate, usesHtml, usesHtmlAux, functionAcceptsHtml, checkFunctionAcceptsHtml,
      checkHtmlVariable, isXssSafe, checkForXss, checkForXssList, rulesGet,
      getDescendants, gdObj, gdList, getPassthrough, checkTerminals, checkOneTerminal,
      getNodeName, markParentXSS, getParentFunctionIdentifier, funcIdResolve,
      isFuncNode, funcIdOf, h]

/-! ## Claim C4: string literal with an HTML fragment in a declarator -/

/-- C4: a variable declarator initialized with a string literal containing
`<` followed by a lowercase letter yields exactly one `Non-HTML variable`
finding at the declared identifier when the name misses the HTML-variable
pattern, and zero findings when it matches; the literal itself is never
reported (literals pass the per-terminal safety test). -/
theorem C4_declarator_literal (name s : String) (h : hasHtmlTag s = true) :
    analyze defaultConfig
      [.varDecl (.cons (.declarator (.ident name false)
        (.some (.lit s false false))) .nil)] =
    (if isHtmlVariable defaultConfig (.ident name false) then []
     else [⟨.nonHtmlVariable, .ident name false⟩]) := by
  cases h2 : isHtmlVariable defaultConfig (.ident name false) <;>
    simp [analyze, runWith, freshState, walk, walkList, walkOpt, enterStep, exitStep,
      pushNode, infectParentConditional, isCommentedSafe, isCommentedSafeAux,
      commentClimbKind, safeFlag, getCommentParent, climbBinary, canInfectXss,
      canInfectGo, isParameter, literalInfects, callInfects, isHtmlOutputFunction,
      getFunctionRules, getWithCache, getFullItemName, fullNameParts, unwrapCall,
      propName, joinDot, lookupC, firstHit, getRuleNames, ruleNamesGo, getIdentifier,
      emptyPolicy,
      getXssCandidateParent, gxcpGo, pathToCall, markXssAt, exitNode,
      popAndGate, usesHtml, usesHtmlAux, functionAcceptsHtml, checkFunctionAcceptsHtml,
      checkHtmlVariable, isXssSafe, checkForXss, checkForXssList, rulesGet,
      getDescendants, gdObj, gdList, getPassthrough, checkTerminals, checkOneTerminal,
      getNodeName, markParentXSS, getParentFunctionIdentifier, funcIdResolve,
      isFuncNode, funcIdOf, h, h2]

/-- C4 witness: `var msg = "<b>hi</b>";` yields exactly the one
`Non-HTML variable` finding at `msg`. -/
theorem C4_witness :
    hasHtmlTag "<b>hi</b>" = true ∧
    analyze defaultConfig
      [.varDecl (.cons (.declarator (.ident "msg" false)
        (.some (.lit "<b>hi</b>" false false))) .nil)]
      = [⟨.nonHtmlVariable, .ident "msg" false⟩] :=
  ⟨by decide, by
    have h := C4_declarator_literal "msg" "<b>hi</b>" (by decide)
    rw [h]; decide⟩

/-! ## Claim C5: passthrough calls attribute taint to their leaves -/

/-- `unsafeValue.join("")` under the default options (`.join` is object-
and argument-passthrough). -/
def joinCall : Node :=
  .call (.member (.ident "unsafeValue" false) (.ident "join" false) false false)
    (.cons (.lit "" false false) .nil) false

/-- `htmlMsg = unsafeValue.join("");` as a top-level statement. -/
def joinProg : List Node := [.exprStmt (.assign (.ident "htmlMsg" false) joinCall)]

/-- C5: a call whose resolved policy has `passthrough` never appears among
its own terminals; with a member callee the extraction recurses into the
receiver object (when object-transparent) and into each argument (when
argument-transparent); and the analysis of `htmlMsg = unsafeValue.join("")`
reports exactly one `Unencoded input` finding at the `unsafeValue`
identifier, never at the `.join` call expression. -/
theorem C5_passthrough_attribution :
    (∀ (cfg : Config) (chain : List Anc) (hr : Bool) (cache : Cache) (callee : Node)
       (args : NodeList) (s : Bool),
       ((getFunctionRules cfg cache (.call callee args s)).1.passthrough).isSome = true →
       Node.call callee args s ∉
         (getDescendants cfg (.call callee args s) chain hr cache).1.map Prod.fst) ∧
    (∀ (cfg : Config) (chain : List Anc) (hr : Bool) (cache : Cache) (o pr : Node)
       (cm ms : Bool) (args : NodeList) (s : Bool) (pt : Passthrough),
       (getFunctionRules cfg cache (.call (.member o pr cm ms) args s)).1.passthrough
           = Option.some pt →
       getDescendants cfg (.call (.member o pr cm ms) args s) chain hr cache =
         (let c1 := (getFunctionRules cfg cache (.call (.member o pr cm ms) args s)).2
          let op :=
            if pt.obj then
              getDescendants cfg o
                ((.member o pr cm ms, .memObj) ::
                 (.call (.member o pr cm ms) args s, .callCallee) :: chain) hr c1
            else ([], c1)
          let ap :=
            if pt.args then
              gdList cfg args (.call (.member o pr cm ms) args s, .callArg) chain hr op.2
            else ([], op.2)
          (op.1 ++ ap.1, ap.2))) ∧
    analyze defaultConfig joinProg = [⟨.unencodedInput, .ident "unsafeValue" false⟩] ∧
    (∀ d ∈ analyze defaultConfig joinProg, d.node ≠ joinCall) := by
  refine ⟨?_, ?_, by decide, by decide⟩
  · intro cfg chain hr cache callee args s hpt hmem
    simp only [getDescendants, getPassthrough_call] at hmem
    rcases hp2 : (getFunctionRules cfg cache (.call callee args s)).1.passthrough with _ | pt
    · rw [hp2] at hpt; simp at hpt
    · rw [hp2] at hmem
      simp only [List.map_append, List.mem_append, List.mem_map] at hmem
      rcases hmem with ⟨t, ht, he⟩ | ⟨t, ht, he⟩
      · by_cases hobj : pt.obj = true
        · rw [if_pos hobj] at ht
          have hlt := gdObj_size_lt cfg callee _ hr _ t ht
          rw [he] at hlt
          simp only [Node.call.sizeOf_spec] at hlt
          omega
        · rw [if_neg hobj] at ht; simp at ht
      · by_cases hargs : pt.args = true
        · rw [if_pos hargs] at ht
          have hlt := gdList_size_lt cfg args _ chain hr _ t ht
          rw [he] at hlt
          simp only [Node.call.sizeOf_spec] at hlt
          omega
        · rw [if_neg hargs] at ht; simp at ht
  · intro cfg chain hr cache o pr cm ms args s pt hpt
    simp only [getDescendants, getPassthrough_call, hpt, gdObj]

/-- C5 witness: the default `.join` policy is a passthrough and the join
call is absent from its own terminal list. -/
theorem C5_witness :
    ((getFunctionRules defaultConfig [] joinCall).1.passthrough).isSome = true ∧
    joinCall ∉ (getDescendants defaultConfig joinCall [] false []).1.map Prod.fst :=
  ⟨by decide,
    C5_passthrough_attribution.1 defaultConfig [] false []
      (.member (.ident "unsafeValue" false) (.ident "join" false) false false)
      (.cons (.lit "" false false) .nil) false (by decide)⟩

/-! ## Claim C6: function-policy lookup order and caching -/

/-- C6: a policy lookup consults the cache under the exact full name
first; on a miss the candidate names are tried most-specific-first — for a
dotted chain `a.b.c` they are `a.b.c`, `.b.c`, `.c` — with the first
configured entry winning; when nothing matches, the empty policy is cached
under the full name and returned; a node with no resolvable identifier at
all receives the empty policy. -/
theorem C6_policy_lookup :
    (∀ (tbl : List (String × FunctionPolicy)) (cache : Cache) (n : Node)
       (p : FunctionPolicy),
       lookupC cache (getFullItemName n) = Option.some p →
       getWithCache tbl cache n = (p, cache)) ∧
    (∀ (a b c : String) (s1 s2 s3 s4 s5 : Bool),
       getRuleNames
         (.member (.member (.ident a s1) (.ident b s2) false s3) (.ident c s4) false s5)
         = [a ++ "." ++ b ++ "." ++ c, "." ++ b ++ "." ++ c, "." ++ c]) ∧
    (∀ (tbl : List (String × FunctionPolicy)) (cache : Cache) (n : Node),
       lookupC cache (getFullItemName n) = Option.none →
       getWithCache tbl cache n =
         ((firstHit tbl (getRuleNames n)).getD emptyPolicy,
          (getFullItemName n, (firstHit tbl (getRuleNames n)).getD emptyPolicy) :: cache)) ∧
    (∀ (tbl : List (String × FunctionPolicy)) (nm : String) (nms : List String)
       (p : FunctionPolicy),
       lookupC tbl nm = Option.some p → firstHit tbl (nm :: nms) = Option.some p) ∧
    (∀ (tbl : List (String × FunctionPolicy)) (nms : List String),
       (∀ x ∈ nms, lookupC tbl x = Option.none) → firstHit tbl nms = Option.none) ∧
    (getRuleNames .thisE = [] ∧ getFullItemName .thisE = "" ∧
     ∀ (tbl : List (String × FunctionPolicy)) (cache : Cache),
       lookupC cache "" = Option.none →
       getWithCache tbl cache .thisE = (emptyPolicy, ("", emptyPolicy) :: cache)) := by
  refine ⟨?_, ?_, ?_, ?_, ?_, by decide, by decide, ?_⟩
  · intro tbl cache n p h
    simp only [getWithCache, h]
  · intro a b c s1 s2 s3 s4 s5
    simp [getRuleNames, ruleNamesGo, unwrapCall, getIdentifier, joinDot,
      String.append_assoc]
  · intro tbl cache n h
    simp only [getWithCache, h]
  · intro tbl nm nms p h
    unfold firstHit
    rw [h]
  · intro tbl nms h
    induction nms with
    | nil => rfl
    | cons x xs ih =>
      unfold firstHit
      rw [h x (by simp)]
      exact ih (fun y hy => h y (by simp [hy]))
  · intro tbl cache h
    have h0 : lookupC cache (getFullItemName .thisE) = Option.none := h
    simp only [getWithCache, h0]
    rfl

/-- C6 witness: a cached entry is returned as-is, and an unresolvable node
receives (and caches) the empty policy. -/
theorem C6_witness :
    lookupC [("x", ({ htmlInput := true } : FunctionPolicy))]
        (getFullItemName (.ident "x" false)) = Option.some { htmlInput := true } ∧
    getWithCache [] [("x", ({ htmlInput := true } : FunctionPolicy))] (.ident "x" false)
        = ({ htmlInput := true }, [("x", { htmlInput := true })]) ∧
    getWithCache defaultConfig.functionRules [] .thisE
        = (emptyPolicy, [("", emptyPolicy)]) :=
  ⟨by decide,
   C6_policy_lookup.1 [] [("x", { htmlInput := true })] (.ident "x" false)
     { htmlInput := true } (by decide),
   C6_policy_lookup.2.2.2.2.2.2.2 defaultConfig.functionRules [] (by decide)⟩

/-! ## Claim C7: the infection gates have no effect when they fail -/

/-- The prefix of an ancestor chain walked by `canInfectGo`: everything up
to and including the first entry whose node is the top frame's node. -/
def chainToTop : List Anc → Node → List Anc
  | [], _ => []
  | (p, e) :: rest, top =>
    if p == top then [(p, e)] else (p, e) :: chainToTop rest top

/-- C7: a suspected source leaf has no effect — the state (stack flags and
diagnostics) is returned unchanged — when the sink stack is empty, or the
leaf is commented safe, or the parameter-chain walk fails; and the walk
does fail whenever some step up to the top frame's node is not a
value-carrying position. -/
theorem C7_infection_gates :
    (∀ (cfg : Config) (condE : Node → Cache → Bool × Cache) (n : Node)
       (chain : List Anc) (st : AState),
       st.stack = [] → infectParentConditional cfg condE n chain st = st) ∧
    (∀ (cfg : Config) (condE : Node → Cache → Bool × Cache) (n : Node)
       (chain : List Anc) (st : AState),
       isCommentedSafe n chain = true → infectParentConditional cfg condE n chain st = st) ∧
    (∀ (cfg : Config) (condE : Node → Cache → Bool × Cache) (n : Node)
       (chain : List Anc) (st : AState),
       canInfectXss n chain st.stack = false →
       infectParentConditional cfg condE n chain st = st) ∧
    (∀ (n top q : Node) (f : Edge) (chain : List Anc),
       (q, f) ∈ chainToTop chain top → isParameter q f = false →
       canInfectGo n chain top = false) ∧
    (∀ (n : Node) (chain : List Anc) (fr : Frame) (rest : List Frame),
       canInfectXss n chain (fr :: rest) = canInfectGo n chain fr.node) := by
  refine ⟨?_, ?_, ?_, ?_, fun _ _ _ _ => rfl⟩
  · intro cfg condE n chain st h
    unfold infectParentConditional
    rw [h]
    simp
  · intro cfg condE n chain st h
    unfold infectParentConditional
    rw [h]
    simp
  · intro cfg condE n chain st h
    unfold infectParentConditional
    rw [h]
    simp
  · intro n top q f chain
    induction chain generalizing n with
    | nil => intro hm _; simp [chainToTop] at hm
    | cons pe rest ih =>
      obtain ⟨p, e⟩ := pe
      intro hm hbad
      by_cases hp : isParameter p e = true
      · have hne : ¬((q, f) = (p, e)) := by
          intro he
          rw [Prod.mk.injEq] at he
          obtain ⟨h1, h2⟩ := he
          subst h1; subst h2
          rw [hp] at hbad
          exact absurd hbad (by simp)
        unfold chainToTop at hm
        by_cases htop : (p == top) = true
        · rw [if_pos htop] at hm
          simp only [List.mem_singleton] at hm
          exact absurd hm hne
        · rw [if_neg htop] at hm
          rcases List.mem_cons.mp hm with heq | hmem
          · exact absurd heq hne
          · have htop2 : (p == top) = false := by
              simpa using htop
            unfold canInfectGo
            rw [hp, htop2]
            simp only [Bool.not_true, Bool.false_eq_true, if_false]
            exact ih p hmem hbad
      · have hp2 : isParameter p e = false := by
          simpa using hp
        unfold canInfectGo
        rw [hp2]
        simp

/-- C7 witness: a leaf sitting in a call's callee position (`html.encode`
in `htmlOut = html.encode(text)`) fails the parameter-chain walk and its
visit leaves the state untouched. -/
theorem C7_witness :
    canInfectXss (.ident "encode" false)
      [(.member (.ident "html" false) (.ident "encode" false) false false, .memProp),
       (.call (.member (.ident "html" false) (.ident "encode" false) false false)
          (.cons (.ident "text" false) .nil) false, .callCallee),
       (.assign (.ident "htmlOut" false)
          (.call (.member (.ident "html" false) (.ident "encode" false) false false)
            (.cons (.ident "text" false) .nil) false), .assignR)]
      [⟨.assign (.ident "htmlOut" false)
          (.call (.member (.ident "html" false) (.ident "encode" false) false false)
            (.cons (.ident "text" false) .nil) false), false⟩] = false ∧
    infectParentConditional defaultConfig
      (fun nd c => (isHtmlVariable defaultConfig nd, c))
      (.ident "encode" false)
      [(.member (.ident "html" false) (.ident "encode" false) false false, .memProp),
       (.call (.member (.ident "html" false) (.ident "encode" false) false false)
          (.cons (.ident "text" false) .nil) false, .callCallee),
       (.assign (.ident "htmlOut" false)
          (.call (.member (.ident "html" false) (.ident "encode" false) false false)
            (.cons (.ident "text" false) .nil) false), .assignR)]
      ⟨[⟨.assign (.ident "htmlOut" false)
          (.call (.member (.ident "html" false) (.ident "encode" false) false false)
            (.cons (.ident "text" false) .nil) false), false⟩], [], []⟩ =
      ⟨[⟨.assign (.ident "htmlOut" false)
          (.call (.member (.ident "html" false) (.ident "encode" false) false false)
            (.cons (.ident "text" false) .nil) false), false⟩], [], []⟩ :=
  ⟨by decide,
   C7_infection_gates.2.2.1 defaultConfig _ _ _ _ (by decide)⟩

/-! ## Claim C8: determinism across fresh instantiations -/

/-- C8: two rule instantiations over the same tree and configuration, each
starting from the fresh per-instance state (empty expression stack, empty
rules cache, no diagnostics), produce identical states — in particular the
same diagnostics in the same order. -/
theorem C8_deterministic (cfg : Config) (prog : List Node) (s1 s2 : AState)
    (h1 : s1 = freshState) (h2 : s2 = freshState) :
    runWith cfg prog s1 = runWith cfg prog s2 ∧
    (runWith cfg prog s1).diags = analyze cfg prog := by
  subst h1; subst h2
  exact ⟨rfl, rfl⟩

/-- C8 witness: two fresh runs over `var msg = "<b>hi</b>";` agree. -/
theorem C8_witness :
    runWith defaultConfig
        [.varDecl (.cons (.declarator (.ident "msg" false)
          (.some (.lit "<b>hi</b>" false false))) .nil)] freshState =
      runWith defaultConfig
        [.varDecl (.cons (.declarator (.ident "msg" false)
          (.some (.lit "<b>hi</b>" false false))) .nil)] freshState ∧
    (runWith defaultConfig
        [.varDecl (.cons (.declarator (.ident "msg" false)
          (.some (.lit "<b>hi</b>" false false))) .nil)] freshState).diags =
      analyze defaultConfig
        [.varDecl (.cons (.declarator (.ident "msg" false)
          (.some (.lit "<b>hi</b>" false false))) .nil)] :=
  C8_deterministic defaultConfig _ freshState freshState rfl rfl

/-! ## Claim C9: only the enumerated parent kinds reject a step -/

/-- The node kinds with an explicit arm in `tree.isParameter`; every other
kind falls through to `return true`. -/
def rejectingKind : Node → Bool
  | .call _ _ _ => true
  | .assign _ _ => true
  | .declarator _ _ => true
  | .prop _ _ => true
  | .arrayE _ _ => true
  | .funcE _ _ _ => true
  | .cond _ _ _ => true
  | .arrow _ _ => true
  | _ => false

/-- C9: for parent kinds outside the enumerated list, `isParameter`
returns true regardless of the child position; only the enumerated kinds
can reject a step; in particular both operands of a binary expression, the
object (and property) of a member expression, and the operand of a unary
expression are value-carrying. -/
theorem C9_default_value_carrying :
    (∀ (p : Node) (e : Edge), rejectingKind p = false → isParameter p e = true) ∧
    (∀ (p : Node) (e : Edge), isParameter p e = false → rejectingKind p = true) ∧
    (∀ (l r : Node) (s pa : Bool) (e : Edge), isParameter (.binary l r s pa) e = true) ∧
    (∀ (o pr : Node) (cm ms : Bool) (e : Edge), isParameter (.member o pr cm ms) e = true) ∧
    (∀ (a : Node) (e : Edge), isParameter (.unary a) e = true) := by
  refine ⟨?_, ?_, fun _ _ _ _ _ => rfl, fun _ _ _ _ _ => rfl, fun _ _ => rfl⟩
  · intro p e h
    cases p <;> first | rfl | (exact absurd h (by simp [rejectingKind]))
  · intro p e h
    cases p <;> first | rfl | (exact absurd h (by simp [isParameter]))

/-- C9 witness: a binary-expression parent is not a rejecting kind and
both operand positions are value-carrying. -/
theorem C9_witness :
    rejectingKind (.binary (.ident "a" false) (.ident "b" false) false false) = false ∧
    isParameter (.binary (.ident "a" false) (.ident "b" false) false false) .binL = true :=
  ⟨by decide,
   C9_default_value_carrying.1 (.binary (.ident "a" false) (.ident "b" false) false false)
     .binL (by decide)⟩

/-! ## Claim C10: a fully passthrough stack silently drops the source -/

/-- The loop condition of `getXssCandidateParent` over a whole stack:
every frame is a call whose policy is a full passthrough, or a partial
passthrough transparent in the position `ic` (`ic` true when the leaf sits
on the callee/object side of its nearest enclosing call). -/
def allTransparent (cfg : Config) (ic : Bool) : List Frame → Cache → Bool
  | [], _ => true
  | f :: rest, cache =>
    match f.node with
    | .call c a s =>
      (match (rulesGet cfg cache (.call c a s)).1.passthrough with
       | Option.some pt =>
         ((pt.obj && pt.args) || (if ic then pt.obj else pt.args)) &&
           allTransparent cfg ic rest ((rulesGet cfg cache (.call c a s)).2)
       | Option.none => false)
    | _ => false

/-- The candidate scan returns no frame when every frame passes the leaf
through. -/
theorem gxcpGo_none_of_allTransparent (cfg : Config) (ic? : Option Bool) :
    ∀ (stack : List Frame) (i : Nat) (cache : Cache),
      allTransparent cfg (ic?.getD false) stack cache = true →
      (gxcpGo cfg ic? stack i cache).1 = Option.none := by
  intro stack
  induction stack with
  | nil => intro i cache _; rfl
  | cons f rest ih =>
    intro i cache hall
    unfold allTransparent at hall
    unfold gxcpGo
    cases hnode : f.node with
    | call c a s =>
      rw [hnode] at hall
      rcases hpt : (rulesGet cfg cache (.call c a s)).1.passthrough with _ | pt
      · simp only [hpt] at hall
        exact absurd hall (by simp)
      · simp only [hpt] at hall
        rw [Bool.and_eq_true] at hall
        obtain ⟨hpos, hrest⟩ := hall
        simp only [hpt]
        cases hobj : pt.obj <;> cases hargs : pt.args <;> cases hgd : ic?.getD false <;>
          (try simp only [hobj, hargs, hgd] at hpos) <;>
          first
            | simpa using ih (i + 1) ((rulesGet cfg cache (.call c a s)).2) hrest
            | exact absurd hpos (by decide)
    | _ => rw [hnode] at hall; simp at hall

/-- C10: when a source leaf's candidate search finds every stack frame to
be a transparent passthrough, the search returns no candidate; and a
candidate-less resolution leaves every frame's tainted flag and the
diagnostics untouched — the source is silently dropped. -/
theorem C10_full_passthrough_drops :
    (∀ (cfg : Config) (n : Node) (chain : List Anc) (stack : List Frame) (cache : Cache),
       allTransparent cfg ((pathToCall n chain).getD false) stack cache = true →
       (getXssCandidateParent cfg n chain stack cache).1 = Option.none) ∧
    (∀ (cfg : Config) (condE : Node → Cache → Bool × Cache) (n : Node)
       (chain : List Anc) (st : AState),
       (getXssCandidateParent cfg n chain st.stack ((condE n st.cache).2)).1
           = Option.none →
       (infectParentConditional cfg condE n chain st).stack = st.stack ∧
       (infectParentConditional cfg condE n chain st).diags = st.diags) := by
  constructor
  · intro cfg n chain stack cache h
    exact gxcpGo_none_of_allTransparent cfg (pathToCall n chain) stack 0 cache h
  · intro cfg condE n chain st h
    unfold infectParentConditional
    by_cases h1 : st.stack.isEmpty
    · simp [h1]
    · by_cases h2 : isCommentedSafe n chain
      · simp [h1, h2]
      · by_cases h3 : canInfectXss n chain st.stack
        · cases hbc : (condE n st.cache).1
          · simp [h1, h2, h3, hbc]
          · simp [h1, h2, h3, hbc, h]
        · simp [h1, h2, h3]

/-- An argument-carrying `.join` call used as the single stack frame of
the C10 witness. -/
def wCall : Node :=
  .call (.member (.ident "arr" false) (.ident "join" false) false false)
    (.cons (.lit "x" false false) .nil) false

/-- C10 witness: with one full-passthrough `.join` frame on the stack, a
leaf in argument position finds no candidate and its resolution changes
neither the stack nor the diagnostics. -/
theorem C10_witness :
    allTransparent defaultConfig
        ((pathToCall (.lit "x" false false) [(wCall, .callArg)]).getD false)
        [⟨wCall, false⟩] [] = true ∧
    (getXssCandidateParent defaultConfig (.lit "x" false false) [(wCall, .callArg)]
        [⟨wCall, false⟩] []).1 = Option.none ∧
    (infectParentConditional defaultConfig (fun _ c => (true, c)) (.lit "x" false false)
        [(wCall, .callArg)] ⟨[⟨wCall, false⟩], [], []⟩).stack = [⟨wCall, false⟩] ∧
    (infectParentConditional defaultConfig (fun _ c => (true, c)) (.lit "x" false false)
        [(wCall, .callArg)] ⟨[⟨wCall, false⟩], [], []⟩).diags = [] :=
  ⟨by decide,
   C10_full_passthrough_drops.1 defaultConfig (.lit "x" false false) [(wCall, .callArg)]
     [⟨wCall, false⟩] [] (by decide),
   (C10_full_passthrough_drops.2 defaultConfig (fun _ c => (true, c)) (.lit "x" false false)
     [(wCall, .callArg)] ⟨[⟨wCall, false⟩], [], []⟩ (by decide)).1,
   (C10_full_passthrough_drops.2 defaultConfig (fun _ c => (true, c)) (.lit "x" false false)
     [(wCall, .callArg)] ⟨[⟨wCall, false⟩], [], []⟩ (by decide)).2⟩

end XssRule
